import Mathlib

/-!
Shallow embedding of the `ennio` deployment orchestrator.

The embedding follows the source files:
* `src/ennio/app.py` — `EnnioApplication.deploy_all`, `rollback_all`,
  `delete_all`, the `version` property (read-through cache over an SSM
  parameter), `NO_VERSION`.
* `src/ennio/stack.py` — `EnnioStack.create_changeset`, `describe_changeset`,
  `execute_changeset`, `deploy_stack`.
* `src/ennio/utils.py` — `sleep`, `EmptyChangeSetError`, `InvalidConfigError`.

Effectful Python operations are modelled by their outcome: an operation is a
function returning `Option Exc` (`none` = normal return, `some e` = raises
`e`), and remote polling loops are driven by the list of successive responses
the remote API returns.  `sys.exit`, uncaught exceptions and normal returns
are distinguished by `Outcome`.
-/

namespace Ennio

/-- Exception classes raised by the embedded code.  `runtimeError` models
Python's `RuntimeError` (the generic failure raised throughout `stack.py`);
`emptyChangeSetError` and `invalidConfigError` model the two classes in
`utils.py` that derive from `BaseException` rather than `Exception`;
`notImplementedError` models `NotImplementedError` (raised by
`EnnioStack.deploy`, an ordinary `Exception`). -/
inductive Exc where
  | runtimeError (msg : String) : Exc
  | emptyChangeSetError : Exc
  | invalidConfigError : Exc
  | notImplementedError : Exc
deriving DecidableEq, Repr

/-- Whether `except Exception` catches the exception.  In `utils.py`,
`EmptyChangeSetError(BaseException)` and `InvalidConfigError(BaseException)`
derive from `BaseException`, so they are not caught. -/
def Exc.isException : Exc → Bool
  | .runtimeError _ => true
  | .notImplementedError => true
  | .emptyChangeSetError => false
  | .invalidConfigError => false

/-- Predicate singling out the generic `RuntimeError` class. -/
def Exc.isRuntimeError : Exc → Bool
  | .runtimeError _ => true
  | _ => false

/-- A deploy step as built by `EnnioApplication.parse_steps`: the dict
`{name, deploy, rollback, delete, ignore_error}`.  The three operations are
modelled by their outcome; `deploy` and `rollback` receive the version
argument the source passes them. -/
structure Step where
  name : String
  deploy : String → Option Exc
  rollback : String → Option Exc
  delete : Option Exc
  ignore_error : Bool

/-- The sentinel `EnnioApplication.NO_VERSION`. -/
def NO_VERSION : String := "-1"

/-- State of the version store (the SSM parameter backing the `version`
property; `none` models `ParameterNotFound`) together with the application's
cached `_version`. -/
structure AppState where
  storeVersion : Option String
  cachedVersion : Option String
deriving DecidableEq, Repr

/-- The `version` property getter: return the cached value if set, otherwise
read the store (absence maps to `NO_VERSION`) and fill the cache. -/
def getVersion (st : AppState) : String × AppState :=
  match st.cachedVersion with
  | some v => (v, st)
  | none =>
    let v := st.storeVersion.getD NO_VERSION
    (v, { st with cachedVersion := some v })

/-- The `version` property setter: `put_parameter` with `Overwrite=True`,
then update the cache. -/
def setVersion (v : String) (_st : AppState) : AppState :=
  { storeVersion := some v, cachedVersion := some v }

/-- How the `for` loop in `deploy_all` ends: `completed` (no `break`, the
`for`/`else` branch runs), `broke` (a non-ignored `Exception`), or `raised`
(an exception `except Exception` does not catch, which propagates). -/
inductive LoopExit where
  | completed : LoopExit
  | broke : LoopExit
  | raised (e : Exc) : LoopExit
deriving DecidableEq, Repr

/-- The step loop of `deploy_all` over indexed steps.  Returns the indices
whose deploy was invoked (in invocation order), the `changed` list, and how
the loop ended. -/
def deployLoop (build : String) : List (Nat × Step) → List Nat × List (Nat × Step) × LoopExit
  | [] => ([], [], .completed)
  | (i, s) :: rest =>
    match s.deploy build with
    | none =>
      let r := deployLoop build rest
      (i :: r.1, (i, s) :: r.2.1, r.2.2)
    | some e =>
      if e.isException then
        if s.ignore_error then
          let r := deployLoop build rest
          (i :: r.1, r.2.1, r.2.2)
        else ([i], [], .broke)
      else ([i], [], .raised e)

/-- The loop of `rollback_all` over the reversed `changed` list: a failing
rollback propagates immediately (the call is not wrapped in `try`).  Returns
the indices whose rollback was invoked and the propagated exception, if
any. -/
def rollbackLoop (v : String) : List (Nat × Step) → List Nat × Option Exc
  | [] => ([], none)
  | (i, s) :: rest =>
    match s.rollback v with
    | none =>
      let r := rollbackLoop v rest
      (i :: r.1, r.2)
    | some e => ([i], some e)

/-- Result of running an operation: normal return, `sys.exit(code)`, or an
uncaught exception. -/
inductive Outcome where
  | success : Outcome
  | exited (code : Nat) : Outcome
  | raised (e : Exc) : Outcome
deriving DecidableEq, Repr

/-- Result of `rollback_all`. -/
structure RollbackResult where
  rollbackCalls : List Nat
  state : AppState
  outcome : Outcome

/-- `EnnioApplication.rollback_all`: warn-and-return when the current version
is `NO_VERSION`, otherwise run every rollback of `changed` in reverse. -/
def rollbackAll (changed : List (Nat × Step)) (st : AppState) : RollbackResult :=
  let p := getVersion st
  if p.1 = NO_VERSION then ⟨[], p.2, .success⟩
  else
    let r := rollbackLoop p.1 changed.reverse
    ⟨r.1, p.2, match r.2 with | none => .success | some e => .raised e⟩

/-- Result of `deploy_all`. -/
structure DeployResult where
  deployCalls : List Nat
  changed : List (Nat × Step)
  rollbackCalls : List Nat
  state : AppState
  outcome : Outcome

/-- `EnnioApplication.deploy_all`:  read the current version (the logging
line triggers the read-through cache), run the step loop, and on completion
write the new version; on a `break` run `rollback_all` (unless disabled by
`ENNIO_NO_ROLLBACK`, modelled by `noRollback`) and `sys.exit(1)`; an
exception not caught by `except Exception` propagates. -/
def deployAll (steps : List Step) (build : String) (noRollback : Bool) (st : AppState) : DeployResult :=
  let p := getVersion st
  let r := deployLoop build (List.enumFrom 0 steps)
  match r.2.2 with
  | .completed => ⟨r.1, r.2.1, [], setVersion build p.2, .success⟩
  | .raised e => ⟨r.1, r.2.1, [], p.2, .raised e⟩
  | .broke =>
    if noRollback then ⟨r.1, r.2.1, [], p.2, .exited 1⟩
    else
      let rb := rollbackAll r.2.1 p.2
      match rb.outcome with
      | .raised e => ⟨r.1, r.2.1, rb.rollbackCalls, rb.state, .raised e⟩
      | _ => ⟨r.1, r.2.1, rb.rollbackCalls, rb.state, .exited 1⟩

/-- The loop of `delete_all` over the reversed step list: `except Exception`
breaks out of the loop (normal return), an exception it does not catch
propagates.  Returns the indices whose delete was invoked and the outcome. -/
def deleteLoop : List (Nat × Step) → List Nat × Outcome
  | [] => ([], .success)
  | (i, s) :: rest =>
    match s.delete with
    | none =>
      let r := deleteLoop rest
      (i :: r.1, r.2)
    | some e => ([i], if e.isException then .success else .raised e)

/-- `EnnioApplication.delete_all`: read the current version (for the log
line), then run the deletes in reverse step order. -/
def deleteAll (steps : List Step) (st : AppState) : List Nat × AppState × Outcome :=
  let p := getVersion st
  let r := deleteLoop (List.enumFrom 0 steps).reverse
  (r.1, p.2, r.2)

/-- Step `s` is reached and the `deploy_all` loop continues past it: its
deploy succeeds, or raises an `Exception` with `ignore_error` set. -/
def Step.passesOn (s : Step) (build : String) : Bool :=
  match s.deploy build with
  | none => true
  | some e => e.isException && s.ignore_error

/-- Step `s` raises a non-ignored `Exception`: the loop `break`s there. -/
def Step.fatalOn (s : Step) (build : String) : Bool :=
  match s.deploy build with
  | none => false
  | some e => e.isException && !s.ignore_error

/-- Substring test on character lists: does `l` contain `pat` as a
contiguous sublist?  Models Python's `pat in s` on strings. -/
def listHasSub (pat : List Char) : List Char → Bool
  | [] => pat == []
  | c :: rest => pat.isPrefixOf (c :: rest) || listHasSub pat rest

/-- Python's substring operator `pat in s`. -/
def strContains (s pat : String) : Bool := listHasSub pat.toList s.toList

/-- Python's `s.startswith(pat)`. -/
def strStartsWith (s pat : String) : Bool := pat.toList.isPrefixOf s.toList

/-- Python's `s.endswith(pat)`. -/
def strEndsWith (s pat : String) : Bool := pat.toList.isSuffixOf s.toList

/-- An apostrophe, spelled via its code point. -/
def apos : String := String.singleton (Char.ofNat 39)

/-- The literal substring tested in `describe_changeset`:
`"didn't contain changes"`. -/
def noChangesSub : String := "didn" ++ apos ++ "t contain changes"

/-- The second status reason `describe_changeset` treats as an empty diff. -/
def noUpdatesMsg : String := "No updates are to be performed."

/-- One response of the remote `describe_change_set` call. -/
structure ChangeSetResponse where
  status : String
  execStatus : String
  statusReason : String
  changes : List String
  nextToken : Option String

/-- Classification of the `StatusReason` in the `FAILED` branch of
`describe_changeset`: the substring test, or equality with the second
message AWS can produce. -/
def indicatesNoChanges (reason : String) : Bool :=
  strContains reason noChangesSub || reason == noUpdatesMsg

/-- The pagination loop (second `while True`) of `describe_changeset`:
concatenate the pages until a response carries no `NextToken`.  The loop
always performs at least one remote call, so an exhausted response stream is
modelled as an error. -/
def describePage (acc : List String) : List ChangeSetResponse → Except Exc (List String)
  | [] => .error (.runtimeError "model: response stream exhausted")
  | r :: rest =>
    match r.nextToken with
    | none => .ok (acc ++ r.changes)
    | some _ => describePage (acc ++ r.changes) rest

/-- The polling loop of `EnnioStack.describe_changeset` driven by the list of
successive `describe_change_set` responses.  An exhausted response stream
models the 60 second timeout of `sleep(start, 60)` raising `RuntimeError`. -/
def describePoll (stackName : String) : List ChangeSetResponse → Except Exc (List String)
  | [] => .error (.runtimeError "Operation timeout in 60 seconds.")
  | r :: rest =>
    if r.status == "FAILED" then
      if indicatesNoChanges r.statusReason then .error .emptyChangeSetError
      else
        .error (.runtimeError
          ("Failed to create changeset for " ++ stackName ++ ": " ++ r.statusReason))
    else if r.status == "CREATE_COMPLETE" && r.execStatus == "AVAILABLE" then
      match r.nextToken with
      | none => .ok r.changes
      | some _ => describePage r.changes rest
    else describePoll stackName rest

/-- The keyword arguments `create_changeset` passes to `create_change_set`,
restricted to the fields the claims are about. -/
structure ChangeSetKwargs where
  templateBody : Option String
  templateURL : Option String
  changeSetType : String
deriving DecidableEq, Repr

/-- `EnnioStack.create_changeset` — template resolution and changeset type.
`isFile` models `os.path.isfile(template)` and `contents` the contents read
from the file; `stackExists` models `self.stack_exists()`. -/
def create_changeset (isFile : Bool) (contents template : String) (stackExists : Bool) :
    Except Exc ChangeSetKwargs :=
  let ctype := if stackExists then "UPDATE" else "CREATE"
  if isFile then .ok ⟨some contents, none, ctype⟩
  else if strStartsWith template "http" then .ok ⟨none, some template, ctype⟩
  else .error (.runtimeError ("Bad template: " ++ template ++ "."))

/-- The loop condition in `execute_changeset` and `delete_stack`: the stack
status is terminal when it ends with `FAILED` or `COMPLETE`. -/
def isTerminalStatus (s : String) : Bool :=
  strEndsWith s "FAILED" || strEndsWith s "COMPLETE"

/-- The `bad_statuses` list of `execute_changeset`. -/
def badStatuses : List String :=
  ["UPDATE_ROLLBACK_COMPLETE", "ROLLBACK_COMPLETE", "DELETE_COMPLETE"]

/-- `EnnioStack.execute_changeset` after triggering execution, driven by the
successively polled stack statuses: poll to the first terminal status, then
raise `RuntimeError` when that status is in `bad_statuses`.  A stream with no
terminal status models the wait that only the `sleep` timeout would end. -/
def execute_changeset (statuses : List String) : Except Exc Unit :=
  match statuses.find? isTerminalStatus with
  | none => .error (.runtimeError "model: no terminal status observed")
  | some s =>
    if s ∈ badStatuses then .error (.runtimeError "Failed to create/update stack.")
    else .ok ()

/-- `EnnioStack.deploy_stack` wired over `create_changeset`,
`describe_changeset` and `execute_changeset`.  The first component records
whether `execute_changeset` was invoked; the second is the returned value
(`none` models the bare `return` in the `except EmptyChangeSetError`
branch). -/
def deploy_stack (isFile : Bool) (contents template : String) (stackExists : Bool)
    (stackName : String) (descResponses : List ChangeSetResponse)
    (execStatuses : List String) : Bool × Except Exc (Option (List String)) :=
  match create_changeset isFile contents template stackExists with
  | .error e => (false, .error e)
  | .ok _ =>
    match describePoll stackName descResponses with
    | .error .emptyChangeSetError => (false, .ok none)
    | .error e => (false, .error e)
    | .ok changes =>
      match execute_changeset execStatuses with
      | .error e => (true, .error e)
      | .ok _ => (true, .ok (some changes))

/-- The poll interval computed by `utils.sleep` at `t` elapsed whole seconds:
`int((since_start ** 0.5) * 2.5) + 4`.  For nonnegative reals truncation is
the floor, and `⌊√t * 5/2⌋ = ⌊√(25·t/4)⌋ = Nat.sqrt (25*t/4)` (proved below
as `sleepInterval_eq_floor`), which keeps the definition executable. -/
def sleepInterval (t : Nat) : Nat := Nat.sqrt (25 * t / 4) + 4

/-- `utils.sleep` at `t` elapsed whole seconds: the timeout check precedes
computing and sleeping the interval, and fires when `since_start > timeout`
strictly.  Returns the slept interval. -/
def sleepStep (t : Nat) (timeout : Option Nat) : Except Exc Nat :=
  match timeout with
  | some b =>
    if b < t then
      .error (.runtimeError ("Operation timeout in " ++ toString b ++ " seconds."))
    else .ok (sleepInterval t)
  | none => .ok (sleepInterval t)

/-- A response at which the polling loop of `describe_changeset` neither
fails nor returns: the status is not `FAILED` and not `CREATE_COMPLETE` with
execution status `AVAILABLE` (the loop logs and polls again). -/
def nonTerminalResp (r : ChangeSetResponse) : Bool :=
  !(r.status == "FAILED") &&
  !(r.status == "CREATE_COMPLETE" && r.execStatus == "AVAILABLE")

/-! ### Concrete fixtures used by the witnesses -/

/-- The exact status reason quoted by the spec:
`"The submitted information didn't contain changes."`. -/
def submittedNoChangesReason : String :=
  "The submitted information didn" ++ apos ++ "t contain changes."

/-- A terminal `FAILED` response carrying that reason. -/
def respNoChanges : ChangeSetResponse :=
  ⟨"FAILED", "UNAVAILABLE", submittedNoChangesReason, [], none⟩

/-- A step whose operations all succeed. -/
def stepOk : Step := ⟨"ok", fun _ => none, fun _ => none, none, false⟩

/-- A step whose deploy raises a non-ignored `RuntimeError`. -/
def stepFatal : Step := ⟨"fatal", fun _ => some (.runtimeError "boom"), fun _ => none, none, false⟩

/-- A step whose deploy raises a `RuntimeError` with `ignore_error` set. -/
def stepIgnored : Step := ⟨"ignored", fun _ => some (.runtimeError "skip"), fun _ => none, none, true⟩

/-- A step whose deploy raises `EmptyChangeSetError` (a `BaseException`),
with `ignore_error` set. -/
def stepBase : Step := ⟨"base", fun _ => some .emptyChangeSetError, fun _ => none, none, true⟩

/-- A state whose store holds version "0" (a previous deployment exists). -/
def stDeployed : AppState := ⟨some "0", none⟩

/-- A state with no stored version: `version` reads as `NO_VERSION`. -/
def stFresh : AppState := ⟨none, none⟩

/-! ### Helper lemmas about the version cache -/

theorem getVersion_idem (st : AppState) :
    getVersion (getVersion st).2 = ((getVersion st).1, (getVersion st).2) := by
  cases h : st.cachedVersion <;> simp [getVersion, h]

theorem getVersion_store (st : AppState) :
    (getVersion st).2.storeVersion = st.storeVersion := by
  cases h : st.cachedVersion <;> simp [getVersion, h]

/-! ### Helper lemmas about the deploy loop -/

theorem deployLoop_allOk (build : String) :
    ∀ (l : List Step) (k : Nat), (∀ s ∈ l, s.deploy build = none) →
    deployLoop build (List.enumFrom k l) =
      (List.range' k l.length, List.enumFrom k l, LoopExit.completed) := by
  intro l
  induction l with
  | nil => intro k _; rfl
  | cons a t ih =>
    intro k h
    have ha : a.deploy build = none := h a (List.mem_cons_self a t)
    have ht : ∀ s ∈ t, s.deploy build = none := fun s hs => h s (List.mem_cons_of_mem a hs)
    simp [List.enumFrom_cons, deployLoop, ha, ih (k+1) ht, List.range'_succ]

theorem deployLoop_fatal (build : String) :
    ∀ (l : List Step) (i k : Nat) (hi : i < l.length),
    (∀ j (hj : j < i), (l.get ⟨j, hj.trans hi⟩).passesOn build = true) →
    (l.get ⟨i, hi⟩).fatalOn build = true →
    deployLoop build (List.enumFrom k l) =
      (List.range' k (i+1),
       (List.enumFrom k (l.take i)).filter (fun p => (p.2.deploy build).isNone),
       LoopExit.broke) := by
  intro l
  induction l with
  | nil => intro i k hi; exact absurd hi (Nat.not_lt_zero i)
  | cons a t ih =>
    intro i k hi hpass hfatal
    cases i with
    | zero =>
      have h0 : (a :: t).get ⟨0, hi⟩ = a := rfl
      rw [h0] at hfatal
      unfold Step.fatalOn at hfatal
      cases hd : a.deploy build with
      | none => rw [hd] at hfatal; simp at hfatal
      | some e =>
        rw [hd] at hfatal
        simp only [Bool.and_eq_true, Bool.not_eq_true'] at hfatal
        simp [List.enumFrom_cons, deployLoop, hd, hfatal.1, hfatal.2, List.range'_succ]
    | succ n =>
      have hn : n < t.length := by simpa using Nat.lt_of_succ_lt_succ hi
      have hpass0 : a.passesOn build = true := by
        have := hpass 0 (Nat.succ_pos n)
        simpa using this
      have hpassT : ∀ j (hj : j < n), (t.get ⟨j, hj.trans hn⟩).passesOn build = true := by
        intro j hj
        have := hpass (j+1) (Nat.succ_lt_succ hj)
        simpa [List.get_cons_succ] using this
      have hfatT : (t.get ⟨n, hn⟩).fatalOn build = true := by
        simpa [List.get_cons_succ] using hfatal
      have ihr := ih n (k+1) hn hpassT hfatT
      unfold Step.passesOn at hpass0
      cases hd : a.deploy build with
      | none =>
        simp [List.enumFrom_cons, deployLoop, hd, ihr, List.range'_succ,
          List.take_succ_cons, List.filter_cons]
      | some e =>
        rw [hd] at hpass0
        simp only [Bool.and_eq_true] at hpass0
        simp [List.enumFrom_cons, deployLoop, hd, hpass0.1, hpass0.2, ihr,
          List.range'_succ, List.take_succ_cons, List.filter_cons]

theorem deployLoop_raised (build : String) (e : Exc) :
    ∀ (l : List Step) (i k : Nat) (hi : i < l.length),
    (∀ j (hj : j < i), (l.get ⟨j, hj.trans hi⟩).passesOn build = true) →
    (l.get ⟨i, hi⟩).deploy build = some e →
    e.isException = false →
    deployLoop build (List.enumFrom k l) =
      (List.range' k (i+1),
       (List.enumFrom k (l.take i)).filter (fun p => (p.2.deploy build).isNone),
       LoopExit.raised e) := by
  intro l
  induction l with
  | nil => intro i k hi; exact absurd hi (Nat.not_lt_zero i)
  | cons a t ih =>
    intro i k hi hpass hfail hbase
    cases i with
    | zero =>
      have h0 : (a :: t).get ⟨0, hi⟩ = a := rfl
      rw [h0] at hfail
      simp [List.enumFrom_cons, deployLoop, hfail, hbase, List.range'_succ]
    | succ n =>
      have hn : n < t.length := by simpa using Nat.lt_of_succ_lt_succ hi
      have hpass0 : a.passesOn build = true := by
        have := hpass 0 (Nat.succ_pos n)
        simpa using this
      have hpassT : ∀ j (hj : j < n), (t.get ⟨j, hj.trans hn⟩).passesOn build = true := by
        intro j hj
        have := hpass (j+1) (Nat.succ_lt_succ hj)
        simpa [List.get_cons_succ] using this
      have hfailT : (t.get ⟨n, hn⟩).deploy build = some e := by
        simpa [List.get_cons_succ] using hfail
      have ihr := ih n (k+1) hn hpassT hfailT hbase
      unfold Step.passesOn at hpass0
      cases hd : a.deploy build with
      | none =>
        simp [List.enumFrom_cons, deployLoop, hd, ihr, List.range'_succ,
          List.take_succ_cons, List.filter_cons]
      | some e2 =>
        rw [hd] at hpass0
        simp only [Bool.and_eq_true] at hpass0
        simp [List.enumFrom_cons, deployLoop, hd, hpass0.1, hpass0.2, ihr,
          List.range'_succ, List.take_succ_cons, List.filter_cons]

theorem deployLoop_calls_through (build : String) :
    ∀ (l : List Step) (m k : Nat) (hm : m < l.length),
    (∀ j (hj : j < m), (l.get ⟨j, hj.trans hm⟩).passesOn build = true) →
    ∃ tail, (deployLoop build (List.enumFrom k l)).1 = List.range' k m ++ (k + m) :: tail := by
  intro l
  induction l with
  | nil => intro m k hm; exact absurd hm (Nat.not_lt_zero m)
  | cons a t ih =>
    intro m k hm hpass
    cases m with
    | zero =>
      cases hd : a.deploy build with
      | none =>
        exact ⟨(deployLoop build (List.enumFrom (k+1) t)).1, by
          simp [List.enumFrom_cons, deployLoop, hd]⟩
      | some e =>
        cases he : e.isException with
        | true =>
          cases hg : a.ignore_error with
          | true =>
            exact ⟨(deployLoop build (List.enumFrom (k+1) t)).1, by
              simp [List.enumFrom_cons, deployLoop, hd, he, hg]⟩
          | false =>
            exact ⟨[], by simp [List.enumFrom_cons, deployLoop, hd, he, hg]⟩
        | false =>
          exact ⟨[], by simp [List.enumFrom_cons, deployLoop, hd, he]⟩
    | succ n =>
      have hn : n < t.length := by simpa using Nat.lt_of_succ_lt_succ hm
      have hpass0 : a.passesOn build = true := by
        have := hpass 0 (Nat.succ_pos n)
        simpa using this
      have hpassT : ∀ j (hj : j < n), (t.get ⟨j, hj.trans hn⟩).passesOn build = true := by
        intro j hj
        have := hpass (j+1) (Nat.succ_lt_succ hj)
        simpa [List.get_cons_succ] using this
      obtain ⟨tail, htail⟩ := ih n (k+1) hn hpassT
      refine ⟨tail, ?_⟩
      have harith : k + 1 + n = k + (n + 1) := by omega
      unfold Step.passesOn at hpass0
      cases hd : a.deploy build with
      | none =>
        simp [List.enumFrom_cons, deployLoop, hd, htail, List.range'_succ, harith]
      | some e =>
        rw [hd] at hpass0
        simp only [Bool.and_eq_true] at hpass0
        simp [List.enumFrom_cons, deployLoop, hd, hpass0.1, hpass0.2, htail,
          List.range'_succ, harith]

theorem deployLoop_changed_ok (build : String) :
    ∀ (L : List (Nat × Step)) (p : Nat × Step),
    p ∈ (deployLoop build L).2.1 → p.2.deploy build = none := by
  intro L
  induction L with
  | nil => intro p hp; simp [deployLoop] at hp
  | cons q rest ih =>
    intro p hp
    obtain ⟨i, s⟩ := q
    cases hd : s.deploy build with
    | none =>
      rw [show deployLoop build ((i, s) :: rest) =
        (i :: (deployLoop build rest).1, (i, s) :: (deployLoop build rest).2.1,
         (deployLoop build rest).2.2) by simp [deployLoop, hd]] at hp
      rcases List.mem_cons.mp hp with h | h
      · subst h; exact hd
      · exact ih p h
    | some e =>
      cases he : e.isException with
      | true =>
        cases hg : s.ignore_error with
        | true =>
          rw [show deployLoop build ((i, s) :: rest) =
            (i :: (deployLoop build rest).1, (deployLoop build rest).2.1,
             (deployLoop build rest).2.2) by simp [deployLoop, hd, he, hg]] at hp
          exact ih p hp
        | false =>
          rw [show deployLoop build ((i, s) :: rest) = ([i], [], .broke) by
            simp [deployLoop, hd, he, hg]] at hp
          simp at hp
      | false =>
        rw [show deployLoop build ((i, s) :: rest) = ([i], [], .raised e) by
          simp [deployLoop, hd, he]] at hp
        simp at hp

theorem deployLoop_changed_sub (build : String) :
    ∀ (L : List (Nat × Step)) (p : Nat × Step),
    p ∈ (deployLoop build L).2.1 → p ∈ L := by
  intro L
  induction L with
  | nil => intro p hp; simp [deployLoop] at hp
  | cons q rest ih =>
    intro p hp
    obtain ⟨i, s⟩ := q
    cases hd : s.deploy build with
    | none =>
      rw [show deployLoop build ((i, s) :: rest) =
        (i :: (deployLoop build rest).1, (i, s) :: (deployLoop build rest).2.1,
         (deployLoop build rest).2.2) by simp [deployLoop, hd]] at hp
      rcases List.mem_cons.mp hp with h | h
      · subst h; exact List.mem_cons_self _ _
      · exact List.mem_cons_of_mem _ (ih p h)
    | some e =>
      cases he : e.isException with
      | true =>
        cases hg : s.ignore_error with
        | true =>
          rw [show deployLoop build ((i, s) :: rest) =
            (i :: (deployLoop build rest).1, (deployLoop build rest).2.1,
             (deployLoop build rest).2.2) by simp [deployLoop, hd, he, hg]] at hp
          exact List.mem_cons_of_mem _ (ih p hp)
        | false =>
          rw [show deployLoop build ((i, s) :: rest) = ([i], [], .broke) by
            simp [deployLoop, hd, he, hg]] at hp
          simp at hp
      | false =>
        rw [show deployLoop build ((i, s) :: rest) = ([i], [], .raised e) by
          simp [deployLoop, hd, he]] at hp
        simp at hp

/-! ### Helper lemmas about the rollback loop -/

theorem rollbackLoop_allOk (v : String) :
    ∀ (L : List (Nat × Step)), (∀ p ∈ L, p.2.rollback v = none) →
    rollbackLoop v L = (L.map Prod.fst, none) := by
  intro L
  induction L with
  | nil => intro _; rfl
  | cons q rest ih =>
    intro h
    obtain ⟨i, s⟩ := q
    have hq : s.rollback v = none := h (i, s) (List.mem_cons_self _ _)
    have hrest : ∀ p ∈ rest, p.2.rollback v = none :=
      fun p hp => h p (List.mem_cons_of_mem _ hp)
    simp [rollbackLoop, hq, ih hrest]

theorem rollbackLoop_calls_sub (v : String) :
    ∀ (L : List (Nat × Step)) (i : Nat),
    i ∈ (rollbackLoop v L).1 → i ∈ L.map Prod.fst := by
  intro L
  induction L with
  | nil => intro i hi; simp [rollbackLoop] at hi
  | cons q rest ih =>
    intro i hi
    obtain ⟨j, s⟩ := q
    cases hd : s.rollback v with
    | none =>
      rw [show rollbackLoop v ((j, s) :: rest) =
        (j :: (rollbackLoop v rest).1, (rollbackLoop v rest).2) by
          simp [rollbackLoop, hd]] at hi
      rcases List.mem_cons.mp hi with h | h
      · subst h; simp
      · simpa using Or.inr (List.mem_map.mp (ih i h))
    | some e =>
      rw [show rollbackLoop v ((j, s) :: rest) = ([j], some e) by
        simp [rollbackLoop, hd]] at hi
      simp at hi
      subst hi
      simp

theorem rollbackAll_calls_sub (changed : List (Nat × Step)) (st : AppState) :
    ∀ i ∈ (rollbackAll changed st).rollbackCalls, i ∈ changed.map Prod.fst := by
  intro i hi
  unfold rollbackAll at hi
  by_cases hv : (getVersion st).1 = NO_VERSION
  · simp [hv] at hi
  · simp only [hv, if_false] at hi
    have := rollbackLoop_calls_sub (getVersion st).1 changed.reverse i hi
    rw [List.map_reverse, List.mem_reverse] at this
    exact this

/-! ### Membership in enumerated lists -/

theorem mem_enumFrom_snd {α : Type} :
    ∀ (l : List α) (k : Nat) (p : Nat × α), p ∈ List.enumFrom k l → p.2 ∈ l := by
  intro l
  induction l with
  | nil => intro k p hp; simp [List.enumFrom] at hp
  | cons a t ih =>
    intro k p hp
    rw [List.enumFrom_cons] at hp
    rcases List.mem_cons.mp hp with h | h
    · subst h; simp
    · exact List.mem_cons_of_mem _ (ih (k+1) p h)

/-! ### Projections of `deployAll` -/

theorem deployAll_proj (steps : List Step) (build : String) (noRollback : Bool) (st : AppState) :
    (deployAll steps build noRollback st).deployCalls =
      (deployLoop build (List.enumFrom 0 steps)).1 ∧
    (deployAll steps build noRollback st).changed =
      (deployLoop build (List.enumFrom 0 steps)).2.1 ∧
    (∀ x ∈ (deployAll steps build noRollback st).rollbackCalls,
      x ∈ ((deployLoop build (List.enumFrom 0 steps)).2.1).map Prod.fst) := by
  unfold deployAll
  cases hx : (deployLoop build (List.enumFrom 0 steps)).2.2 with
  | completed => simp [hx]
  | raised e => simp [hx]
  | broke =>
    cases noRollback with
    | true => simp [hx]
    | false =>
      cases ho : (rollbackAll (deployLoop build (List.enumFrom 0 steps)).2.1
          (getVersion st).2).outcome with
      | success =>
        simp only [hx, ho, Bool.false_eq_true, if_false]
        refine ⟨by trivial, by trivial, ?_⟩
        intro x hxm
        exact rollbackAll_calls_sub _ _ x hxm
      | exited c =>
        simp only [hx, ho, Bool.false_eq_true, if_false]
        refine ⟨by trivial, by trivial, ?_⟩
        intro x hxm
        exact rollbackAll_calls_sub _ _ x hxm
      | raised e =>
        simp only [hx, ho, Bool.false_eq_true, if_false]
        refine ⟨by trivial, by trivial, ?_⟩
        intro x hxm
        exact rollbackAll_calls_sub _ _ x hxm

/-! ### The delete loop visits a reverse prefix through the first failure -/

theorem deleteLoop_calls :
    ∀ (L : List (Nat × Step)),
    (deleteLoop L).1 =
      (L.takeWhile (fun p => p.2.delete.isNone)).map Prod.fst ++
      ((L.dropWhile (fun p => p.2.delete.isNone)).take 1).map Prod.fst := by
  intro L
  induction L with
  | nil => rfl
  | cons q rest ih =>
    obtain ⟨i, s⟩ := q
    cases hd : s.delete with
    | none => simp [deleteLoop, hd, List.takeWhile_cons, List.dropWhile_cons, ih]
    | some e => simp [deleteLoop, hd, List.takeWhile_cons, List.dropWhile_cons]

/-! ### Claim theorems -/

/-- C1: For every sequence of Steps where the deploy of the Step at index `i`
fails with a non-ignored `Exception` (`ignore_error = false`), `deploy_all`
stops iterating at `i` (exactly the deploys of indices `0..i` are invoked,
none after `i`), invokes rollback on exactly the Steps with index `< i`
whose deploy had succeeded, in strictly reverse order of their deploy order,
and terminates the process with a non-zero status (`sys.exit(1)`).  The side
conditions are the ones the surrounding code imposes: a previous version
exists (`rollback_all` is otherwise a no-op), `ENNIO_NO_ROLLBACK` is unset,
and the rollbacks themselves succeed (a failing rollback propagates). -/
theorem c1_deploy_all_fatal_rolls_back_reverse
    (steps : List Step) (build : String) (st : AppState) (i : Nat)
    (hi : i < steps.length)
    (hpass : ∀ j (hj : j < i), (steps.get ⟨j, hj.trans hi⟩).passesOn build = true)
    (hfatal : (steps.get ⟨i, hi⟩).fatalOn build = true)
    (hver : (getVersion st).1 ≠ NO_VERSION)
    (hrb : ∀ s ∈ steps, s.rollback (getVersion st).1 = none) :
    (deployAll steps build false st).deployCalls = List.range (i+1) ∧
    (deployAll steps build false st).rollbackCalls =
      (((List.enumFrom 0 (steps.take i)).filter
        (fun p => (p.2.deploy build).isNone)).map Prod.fst).reverse ∧
    (deployAll steps build false st).outcome = .exited 1 := by
  have hloop := deployLoop_fatal build steps i 0 hi hpass hfatal
  set C := (List.enumFrom 0 (steps.take i)).filter
    (fun p => (p.2.deploy build).isNone) with hC
  have hrbC : ∀ p ∈ C.reverse, p.2.rollback (getVersion st).1 = none := by
    intro p hp
    rw [List.mem_reverse] at hp
    have hmem := List.mem_of_mem_filter hp
    have hT : p.2 ∈ steps.take i := mem_enumFrom_snd _ 0 p hmem
    exact hrb p.2 (List.mem_of_mem_take hT)
  have hra : rollbackAll C (getVersion st).2 =
      ⟨(C.map Prod.fst).reverse, (getVersion st).2, .success⟩ := by
    unfold rollbackAll
    rw [getVersion_idem]
    simp only [if_neg hver]
    rw [rollbackLoop_allOk _ _ hrbC]
    simp [List.map_reverse]
  simp [deployAll, hloop, hra, List.range_eq_range']

/-- Witness for C1: two steps, the first succeeds and the second raises a
non-ignored `RuntimeError`; a previous version "0" exists.  Both deploys run,
only the first step is rolled back, and the run exits with status 1. -/
theorem c1_witness :
    (deployAll [stepOk, stepFatal] "1" false stDeployed).deployCalls = List.range 2 ∧
    (deployAll [stepOk, stepFatal] "1" false stDeployed).rollbackCalls = [0] ∧
    (deployAll [stepOk, stepFatal] "1" false stDeployed).outcome = .exited 1 := by
  have h := c1_deploy_all_fatal_rolls_back_reverse [stepOk, stepFatal] "1" stDeployed 1
    (by decide)
    (by intro j hj
        have hj0 : j = 0 := by omega
        subst hj0
        rfl)
    rfl
    (by decide)
    (by intro s hs
        rcases List.mem_cons.mp hs with h1 | hs
        · subst h1; rfl
        rcases List.mem_cons.mp hs with h1 | hs
        · subst h1; rfl
        · simp at hs)
  refine ⟨h.1, ?_, h.2.2⟩
  rw [h.2.1]
  rfl

/-- C2: For every sequence of Steps whose deploys all succeed, `deploy_all`
writes the target version `build` to the version store and the cache,
invokes no rollback, invokes every deploy in order, and returns success (no
`sys.exit`, no exception). -/
theorem c2_deploy_all_success_sets_version
    (steps : List Step) (build : String) (noRollback : Bool) (st : AppState)
    (h : ∀ s ∈ steps, s.deploy build = none) :
    (deployAll steps build noRollback st).state = ⟨some build, some build⟩ ∧
    (deployAll steps build noRollback st).rollbackCalls = [] ∧
    (deployAll steps build noRollback st).deployCalls = List.range steps.length ∧
    (deployAll steps build noRollback st).outcome = .success := by
  have hloop := deployLoop_allOk build steps 0 h
  simp [deployAll, hloop, setVersion, List.range_eq_range']

/-- Witness for C2: two succeeding steps; the state ends at version "1" in
store and cache, no rollback, success. -/
theorem c2_witness :
    (deployAll [stepOk, stepOk] "1" false stDeployed).state = ⟨some "1", some "1"⟩ ∧
    (deployAll [stepOk, stepOk] "1" false stDeployed).rollbackCalls = [] ∧
    (deployAll [stepOk, stepOk] "1" false stDeployed).deployCalls = List.range 2 ∧
    (deployAll [stepOk, stepOk] "1" false stDeployed).outcome = .success := by
  exact c2_deploy_all_success_sets_version [stepOk, stepOk] "1" false stDeployed
    (by intro s hs
        rcases List.mem_cons.mp hs with h1 | hs
        · subst h1; rfl
        rcases List.mem_cons.mp hs with h1 | hs
        · subst h1; rfl
        · simp at hs)

/-- C3: For every sequence of Steps where the deploy at index `i` raises an
`Exception` and that Step has `ignore_error = true`, `deploy_all` continues
with the Step at index `i+1` (when it exists, its deploy is invoked), the
failed Step is not appended to `changed`, and no subsequent rollback invokes
that Step's rollback. -/
theorem c3_ignored_failure_continues_and_skips_rollback
    (steps : List Step) (build : String) (noRollback : Bool) (st : AppState)
    (i : Nat) (hi : i < steps.length) (e : Exc)
    (hpass : ∀ j (hj : j < i), (steps.get ⟨j, hj.trans hi⟩).passesOn build = true)
    (hfail : (steps.get ⟨i, hi⟩).deploy build = some e)
    (hexc : e.isException = true)
    (hign : (steps.get ⟨i, hi⟩).ignore_error = true) :
    (i + 1 < steps.length →
      (i+1) ∈ (deployAll steps build noRollback st).deployCalls) ∧
    i ∉ ((deployAll steps build noRollback st).changed.map Prod.fst) ∧
    i ∉ (deployAll steps build noRollback st).rollbackCalls := by
  obtain ⟨hcalls, hchanged, hrbsub⟩ := deployAll_proj steps build noRollback st
  have hnotchanged :
      i ∉ ((deployLoop build (List.enumFrom 0 steps)).2.1).map Prod.fst := by
    intro hmem
    obtain ⟨p, hp, hfst⟩ := List.mem_map.mp hmem
    have hsub := deployLoop_changed_sub build _ p hp
    have hok := deployLoop_changed_ok build _ p hp
    obtain ⟨pi, ps⟩ := p
    simp only at hfst
    subst hfst
    rw [List.mk_mem_enumFrom_iff_le_and_getElem?_sub] at hsub
    have hget : steps[pi]? = some ps := by simpa using hsub.2
    rw [List.getElem?_eq_getElem hi] at hget
    have hps : ps = steps.get ⟨pi, hi⟩ := by
      simpa [List.get_eq_getElem] using (Option.some.inj hget).symm
    rw [hps, hfail] at hok
    simp at hok
  refine ⟨?_, ?_, ?_⟩
  · intro hi1
    have hpass1 : ∀ j (hj : j < i+1),
        (steps.get ⟨j, hj.trans hi1⟩).passesOn build = true := by
      intro j hj
      rcases Nat.lt_or_ge j i with hlt | hge
      · exact hpass j hlt
      · have hji : j = i := by omega
        subst hji
        unfold Step.passesOn
        rw [hfail]
        simpa [hexc] using hign
    obtain ⟨tail, htail⟩ := deployLoop_calls_through build steps (i+1) 0 hi1 hpass1
    rw [hcalls, htail]
    simp
  · rw [hchanged]
    exact hnotchanged
  · intro hmem
    exact hnotchanged (hrbsub i hmem)

/-- Witness for C3: the first step fails with `ignore_error = true`, the
second succeeds.  The second step's deploy is still invoked (index 1 of 2),
index 0 is in neither the changed list nor the rollback calls. -/
theorem c3_witness :
    (1 < 2 → 1 ∈ (deployAll [stepIgnored, stepOk] "1" false stDeployed).deployCalls) ∧
    0 ∉ ((deployAll [stepIgnored, stepOk] "1" false stDeployed).changed.map Prod.fst) ∧
    0 ∉ (deployAll [stepIgnored, stepOk] "1" false stDeployed).rollbackCalls := by
  have h := c3_ignored_failure_continues_and_skips_rollback
    [stepIgnored, stepOk] "1" false stDeployed 0 (by decide) (.runtimeError "skip")
    (by intro j hj; omega)
    rfl
    rfl
    rfl
  exact ⟨fun _ => h.1 (by decide), h.2.1, h.2.2⟩

/-- C4: `delete_all` invokes the Steps' delete operations in exactly the
reverse of deploy order and stops at the first failure: the invoked indices
are the reverse-enumerated steps up to and including the first whose delete
fails, so deletes of Steps earlier in deploy order are never invoked after a
failure.  The characterization makes no reference to `ignore_error`: the
loop in `delete_all` never consults the flag. -/
theorem c4_delete_all_reverse_stops_at_first_failure (steps : List Step) (st : AppState) :
    (deleteAll steps st).1 =
      (((List.enumFrom 0 steps).reverse.takeWhile
        (fun p => p.2.delete.isNone)).map Prod.fst) ++
      ((((List.enumFrom 0 steps).reverse.dropWhile
        (fun p => p.2.delete.isNone)).take 1).map Prod.fst) := by
  simp [deleteAll, deleteLoop_calls]

/-- C5: For every non-empty `changed` list, if the current version reads as
the sentinel `NO_VERSION`, `rollback_all` returns without invoking any
rollback. -/
theorem c5_rollback_all_noop_when_never_deployed
    (changed : List (Nat × Step)) (st : AppState)
    (_hne : changed ≠ []) (hv : (getVersion st).1 = NO_VERSION) :
    (rollbackAll changed st).rollbackCalls = [] ∧
    (rollbackAll changed st).outcome = .success := by
  unfold rollbackAll
  simp [hv]

/-- Witness for C5: one changed step, a state with no stored version. -/
theorem c5_witness :
    (rollbackAll [(0, stepOk)] stFresh).rollbackCalls = [] ∧
    (rollbackAll [(0, stepOk)] stFresh).outcome = .success :=
  c5_rollback_all_noop_when_never_deployed [(0, stepOk)] stFresh
    (List.cons_ne_nil _ _) rfl

/-- The polling loop of `describe_changeset` passes over non-terminal
responses. -/
theorem describePoll_skip (stackName : String) :
    ∀ (pre rest : List ChangeSetResponse), (∀ q ∈ pre, nonTerminalResp q = true) →
    describePoll stackName (pre ++ rest) = describePoll stackName rest := by
  intro pre
  induction pre with
  | nil => intro rest _; rfl
  | cons q pre ih =>
    intro rest h
    have hq : nonTerminalResp q = true := h q (List.mem_cons_self _ _)
    have hrest : ∀ x ∈ pre, nonTerminalResp x = true :=
      fun x hx => h x (List.mem_cons_of_mem _ hx)
    unfold nonTerminalResp at hq
    simp only [Bool.and_eq_true, Bool.not_eq_true'] at hq
    rw [List.cons_append]
    rw [show describePoll stackName (q :: (pre ++ rest)) =
      describePoll stackName (pre ++ rest) by
        simp [describePoll, hq.1, hq.2]]
    exact ih rest hrest

/-- C6: when polling a change request reaches terminal status `FAILED` with
a reason indicating no changes (in particular the exact reason the spec
quotes, matched by the `"didn't contain changes"` substring test),
`describe_changeset` raises `EmptyChangeSetError`, `deploy_stack` swallows
it and returns without invoking `execute_changeset`; for a `FAILED` reason
not indicating no changes, `describe_changeset` raises the generic
`RuntimeError`. -/
theorem c6_empty_changeset_raises_and_deploy_skips_execute
    (stackName : String) (pre post : List ChangeSetResponse) (r : ChangeSetResponse)
    (hpre : ∀ q ∈ pre, nonTerminalResp q = true)
    (hfail : r.status = "FAILED") :
    (indicatesNoChanges r.statusReason = true →
      describePoll stackName (pre ++ r :: post) = .error .emptyChangeSetError ∧
      ∀ contents template stackExists execStatuses,
        deploy_stack true contents template stackExists stackName
          (pre ++ r :: post) execStatuses = (false, .ok none)) ∧
    (indicatesNoChanges r.statusReason = false →
      describePoll stackName (pre ++ r :: post) =
        .error (.runtimeError
          ("Failed to create changeset for " ++ stackName ++ ": " ++ r.statusReason))) := by
  have hskip := describePoll_skip stackName pre (r :: post) hpre
  constructor
  · intro hno
    have hd : describePoll stackName (pre ++ r :: post) = .error .emptyChangeSetError := by
      rw [hskip]
      simp [describePoll, hfail, hno]
    refine ⟨hd, ?_⟩
    intro contents template stackExists execStatuses
    simp [deploy_stack, create_changeset, hd]
  · intro hno
    rw [hskip]
    simp [describePoll, hfail, hno]

/-- Witness for C6: a single `FAILED` response carrying the exact reason
`"The submitted information didn't contain changes."`: describe raises the
empty-changeset signal and deploy returns without executing. -/
theorem c6_witness :
    describePoll "demo" [respNoChanges] = .error .emptyChangeSetError ∧
    deploy_stack true "body" "template.yaml" true "demo" [respNoChanges] [] =
      (false, .ok none) := by
  have h := (c6_empty_changeset_raises_and_deploy_skips_execute "demo" [] []
    respNoChanges (by intro q hq; simp at hq) rfl).1 (by rfl)
  exact ⟨h.1, h.2 "body" "template.yaml" true []⟩

/-- C7: after triggering execution, `execute_changeset` polls to the first
stack status that ends with `"FAILED"` or `"COMPLETE"`, and then fails if
and only if that terminal status is one of `UPDATE_ROLLBACK_COMPLETE`,
`ROLLBACK_COMPLETE` or `DELETE_COMPLETE`; any other terminal status —
including every other `COMPLETE` status — is success. -/
theorem c7_execute_changeset_fails_iff_bad_terminal
    (statuses : List String) (s : String)
    (h : statuses.find? isTerminalStatus = some s) :
    ((∃ e, execute_changeset statuses = .error e) ↔ s ∈ badStatuses) := by
  unfold execute_changeset
  rw [h]
  by_cases hb : s ∈ badStatuses
  · simp [hb]
  · simp [hb]

/-- Witness for C7: the first terminal status of the polled sequence is
`ROLLBACK_COMPLETE`, a "COMPLETE" status that is nevertheless a failure. -/
theorem c7_witness :
    "ROLLBACK_COMPLETE" ∈ badStatuses ∧
    ∃ e, execute_changeset ["UPDATE_IN_PROGRESS", "ROLLBACK_COMPLETE"] = .error e := by
  have hfind : (["UPDATE_IN_PROGRESS", "ROLLBACK_COMPLETE"]).find? isTerminalStatus =
      some "ROLLBACK_COMPLETE" := by rfl
  exact ⟨by decide,
    (c7_execute_changeset_fails_iff_bad_terminal _ _ hfind).mpr (by decide)⟩

/-- C8 counterexample: on a template that is neither a local file nor an
`http` URL, `create_changeset` raises the generic `RuntimeError` with
message `"Bad template: bad."` — the same exception class used for every
other stack-layer failure.  The source defines no `InvalidTemplateError`
(the `Exc` type enumerates every class the code raises), refuting the
claim's "distinct template-error signal". -/
theorem c8_counterexample :
    create_changeset false "" "bad" true =
      .error (.runtimeError "Bad template: bad.") ∧
    (Exc.runtimeError "Bad template: bad.").isRuntimeError = true :=
  ⟨rfl, rfl⟩

/-- C8 (amended): in `create_changeset`, a local file path is sent as the
template body, a template starting with `"http"` is sent as a template URL,
and anything else fails with the generic `RuntimeError("Bad template: ...")`
rather than a distinct `InvalidTemplateError` (which the codebase does not
define). -/
theorem c8_template_resolution_generic_error
    (isFile : Bool) (contents template : String) (stackExists : Bool) :
    (isFile = true →
      create_changeset isFile contents template stackExists =
        .ok ⟨some contents, none, if stackExists then "UPDATE" else "CREATE"⟩) ∧
    (isFile = false → strStartsWith template "http" = true →
      create_changeset isFile contents template stackExists =
        .ok ⟨none, some template, if stackExists then "UPDATE" else "CREATE"⟩) ∧
    (isFile = false → strStartsWith template "http" = false →
      create_changeset isFile contents template stackExists =
        .error (.runtimeError ("Bad template: " ++ template ++ "."))) := by
  refine ⟨fun h1 => ?_, fun h1 h2 => ?_, fun h1 h2 => ?_⟩
  · subst h1; rfl
  · subst h1; simp [create_changeset, h2]
  · subst h1; simp [create_changeset, h2]

/-- Witness for C8 (amended): a URL template on a non-existing stack is sent
as a template URL in a `CREATE`-type changeset. -/
theorem c8_witness :
    create_changeset false "" "https://bucket/template.yaml" false =
      .ok ⟨none, some "https://bucket/template.yaml", "CREATE"⟩ := by
  have h := (c8_template_resolution_generic_error false ""
    "https://bucket/template.yaml" false).2.1 rfl (by rfl)
  simpa using h

/-- The executable poll interval `Nat.sqrt (25*t/4) + 4` agrees with the
spec formula `⌊√t · 2.5⌋ + 4`. -/
theorem sleepInterval_eq_floor (t : Nat) :
    sleepInterval t = ⌊Real.sqrt t * 2.5⌋₊ + 4 := by
  have hy_nonneg : (0:ℝ) ≤ Real.sqrt t * 2.5 := by positivity
  have hy : Real.sqrt t * 2.5 = Real.sqrt (25 * (t:ℝ) / 4) := by
    rw [show 25 * (t:ℝ) / 4 = (t:ℝ) * 2.5 ^ 2 by
      rw [show (2.5:ℝ) ^ 2 = 25 / 4 by norm_num]; ring]
    rw [Real.sqrt_mul (by positivity) (2.5 ^ 2),
      Real.sqrt_sq (by norm_num : (0:ℝ) ≤ 2.5)]
  have hfloor : ⌊Real.sqrt t * 2.5⌋₊ = Nat.sqrt (25 * t / 4) := by
    rw [Nat.floor_eq_iff hy_nonneg, hy]
    set n := Nat.sqrt (25 * t / 4) with hn
    have hn1 : ((n:ℝ)) ^ 2 ≤ 25 * (t:ℝ) / 4 := by
      have h1 : (n ^ 2 : ℕ) ≤ 25 * t / 4 := Nat.sqrt_le' (25 * t / 4)
      calc ((n:ℝ)) ^ 2 = ((n ^ 2 : ℕ) : ℝ) := by push_cast; ring
        _ ≤ ((25 * t / 4 : ℕ) : ℝ) := by exact_mod_cast h1
        _ ≤ 25 * (t:ℝ) / 4 := by
            have h2 := @Nat.cast_div_le ℝ _ (25 * t) 4
            push_cast at h2
            linarith
    have hn2 : 25 * (t:ℝ) / 4 < ((n:ℝ) + 1) ^ 2 := by
      have h1 : 25 * t < 4 * (25 * t / 4) + 4 := by
        have hdm := Nat.div_add_mod (25 * t) 4
        have hmod : 25 * t % 4 < 4 := Nat.mod_lt _ (by norm_num)
        omega
      have h2 : 25 * t / 4 + 1 ≤ (n + 1) ^ 2 := Nat.lt_succ_sqrt' (25 * t / 4)
      have h1r : 25 * (t:ℝ) < 4 * ((25 * t / 4 : ℕ):ℝ) + 4 := by exact_mod_cast h1
      have h2r : ((25 * t / 4 : ℕ):ℝ) + 1 ≤ ((n:ℝ) + 1) ^ 2 := by exact_mod_cast h2
      nlinarith [h1r, h2r]
    constructor
    · rw [Real.le_sqrt (Nat.cast_nonneg n) (by positivity)]
      exact hn1
    · exact (Real.sqrt_lt (by positivity) (by positivity)).mpr hn2
  rw [sleepInterval, hfloor]

/-- C9: the poll interval computed by `sleep` at `t` elapsed whole seconds
equals `⌊√t · 2.5⌋ + 4` (the source computes `int((t ** 0.5) * 2.5) + 4`;
for nonnegative values `int` truncation is the floor), it is monotonically
non-decreasing in `t` and bounded below by 4; with a timeout bound `b`
supplied, `sleep` raises the timeout `RuntimeError` exactly when `t`
strictly exceeds `b`, before sleeping again; otherwise it sleeps the
interval. -/
theorem c9_sleep_backoff_and_timeout (t u b : Nat) (h : t ≤ u) :
    sleepInterval t = ⌊Real.sqrt t * 2.5⌋₊ + 4 ∧
    sleepInterval t ≤ sleepInterval u ∧
    4 ≤ sleepInterval t ∧
    (b < t → sleepStep t (some b) =
      .error (.runtimeError ("Operation timeout in " ++ toString b ++ " seconds."))) ∧
    (¬ b < t → sleepStep t (some b) = .ok (sleepInterval t)) := by
  refine ⟨sleepInterval_eq_floor t, ?_, ?_, ?_, ?_⟩
  · have hdiv : 25 * t / 4 ≤ 25 * u / 4 :=
      Nat.div_le_div_right (Nat.mul_le_mul_left 25 h)
    simpa [sleepInterval] using Nat.add_le_add_right (Nat.sqrt_le_sqrt hdiv) 4
  · exact Nat.le_add_left 4 _
  · intro hb; simp [sleepStep, hb]
  · intro hb; simp [sleepStep, hb]

/-- Witness for C9 at `t = 4`, `u = 9`, `b = 3`: the interval is
`⌊2 · 2.5⌋ + 4 = 9`, the backoff is monotone from `t = 4` to `u = 9`, and
the timeout fires since `4 > 3`. -/
theorem c9_witness :
    sleepInterval 4 = ⌊Real.sqrt (4:ℕ) * 2.5⌋₊ + 4 ∧
    sleepInterval 4 ≤ sleepInterval 9 ∧
    4 ≤ sleepInterval 4 ∧
    (3 < 4 → sleepStep 4 (some 3) =
      .error (.runtimeError ("Operation timeout in " ++ toString 3 ++ " seconds."))) ∧
    (¬ 3 < 4 → sleepStep 4 (some 3) = .ok (sleepInterval 4)) :=
  c9_sleep_backoff_and_timeout 4 9 3 (by decide)

/-- C10: `EmptyChangeSetError` and `InvalidConfigError` derive from
`BaseException` rather than `Exception`, so a step deploy raising one of
them (here any `e` with `isException = false`) propagates out of
`deploy_all` immediately: the steps after `i` are not deployed,
`ignore_error` is not consulted (no hypothesis constrains the step's flag),
no rollback is performed and the stored version is untouched. -/
theorem c10_base_exception_skips_handler_and_rollback
    (steps : List Step) (build : String) (noRollback : Bool) (st : AppState)
    (i : Nat) (hi : i < steps.length) (e : Exc)
    (hpass : ∀ j (hj : j < i), (steps.get ⟨j, hj.trans hi⟩).passesOn build = true)
    (hfail : (steps.get ⟨i, hi⟩).deploy build = some e)
    (hbase : e.isException = false) :
    Exc.emptyChangeSetError.isException = false ∧
    Exc.invalidConfigError.isException = false ∧
    (deployAll steps build noRollback st).outcome = .raised e ∧
    (deployAll steps build noRollback st).rollbackCalls = [] ∧
    (deployAll steps build noRollback st).deployCalls = List.range (i+1) ∧
    (deployAll steps build noRollback st).state.storeVersion = st.storeVersion := by
  have hloop := deployLoop_raised build e steps i 0 hi hpass hfail hbase
  refine ⟨rfl, rfl, ?_, ?_, ?_, ?_⟩ <;>
    simp [deployAll, hloop, List.range_eq_range', getVersion_store]

/-- Witness for C10: a single step whose deploy raises
`EmptyChangeSetError` with `ignore_error = true`: the error still
propagates, nothing is rolled back, the store keeps version "0". -/
theorem c10_witness :
    Exc.emptyChangeSetError.isException = false ∧
    Exc.invalidConfigError.isException = false ∧
    (deployAll [stepBase] "1" false stDeployed).outcome = .raised .emptyChangeSetError ∧
    (deployAll [stepBase] "1" false stDeployed).rollbackCalls = [] ∧
    (deployAll [stepBase] "1" false stDeployed).deployCalls = List.range 1 ∧
    (deployAll [stepBase] "1" false stDeployed).state.storeVersion = stDeployed.storeVersion := by
  exact c10_base_exception_skips_handler_and_rollback [stepBase] "1" false stDeployed 0
    (by decide) .emptyChangeSetError (by intro j hj; omega) rfl rfl

end Ennio
